import Mathlib

/-! The name indexer of blockstack.go (`indexer/indexByName.go`).

A shallow embedding of the crawl pipeline: page scheduling under a counting
limiter, the page-fetch task, and the three worker loops (zone files,
profiles, persistence).

Conventions of the embedding.

* A `*Domain` is a pointer, a natural number, into a heap `Nat → Domain`; the
  hand-off channels carry pointers, as in the source.
* Channels are FIFO lists; a send appends at the end, a receive takes the head.
* The naming-service client, the document store and the `Domain`/`Profile`
  methods that are declared outside `indexByName.go` are the fields of `Env`.
* `panic(err)` and `log.Fatal` end the process: `Outcome.crashed`.
* Go `int` values (`numNames.Count`, `page`) are natural numbers: name counts
  are non-negative and far below the machine range.
-/

namespace IndexByName

/-! ## Data model -/

/-- Source: `var namePageSize = 100`. -/
def namePageSize : Nat := 100

/-- Modelled from the spec: the blockchain record returned by the naming
service ("opaque structure"), from which the zone-file hash is derived. -/
structure BlockchainRecord where
  valueHash : String
deriving DecidableEq, Repr

/-- Modelled from the spec: a profile document ("a structured document derived
from a zone file's content"); the type is declared outside `indexByName.go`. -/
structure Profile where
  body : String
deriving DecidableEq, Repr

/-- Modelled from the spec: the Record (source type `Domain`, declared outside
`indexByName.go`) with the attributes of the data model: name, blockchain
record, decoded zone file, profile. `none` is the Go `nil`. -/
structure Domain where
  name : String
  blockchainRecord : Option BlockchainRecord
  zonefile : Option String
  profile : Option Profile
deriving DecidableEq, Repr

/-- Modelled from the spec: the constructor `NewDomain(name)` ("created by the
Page Fetcher when a name is read from a page"): a Record holding the name and
nothing else yet. -/
def NewDomain (name : String) : Domain :=
  { name := name, blockchainRecord := none, zonefile := none, profile := none }

/-- Result of `GetNamesInNamespace`: the names of one page and the block height. -/
structure NamePage where
  names : List String
  lastblock : Int
deriving DecidableEq, Repr

/-- Result of `GetNumNamesInNamespace`. -/
structure NumNames where
  count : Nat
deriving DecidableEq, Repr

/-- Result of `GetAllNamespaces`. -/
structure Namespaces where
  namespaces : List String
  lastblock : Int
deriving DecidableEq, Repr

/-- Result of `GetZonefiles`: the raw zone files by hash and the block height. -/
structure ZonefilesResult where
  zonefiles : List (String × String)
  lastblock : Int
deriving DecidableEq, Repr

/-- Everything `indexByName.go` calls but does not define: the naming-service
client, the `Domain`/`Domains`/`Profile` methods and the document store.
An error return is `Except.error` (or `some err` next to the result, for the
call whose result is used even when `err != nil`). -/
structure Env where
  /-- Source: `i.client().GetAllNamespaces()` -/
  getAllNamespaces : Except String Namespaces
  /-- Source: `i.client().GetNumNamesInNamespace(ns)` -/
  getNumNamesInNamespace : String → Except String NumNames
  /-- Source: `i.client().GetNamesInNamespace(ns, offset, count)` -/
  getNamesInNamespace : String → Nat → Nat → Except String NamePage
  /-- Source: `i.client().GetNameBlockchainRecord(name)`: the pair `res, err` -/
  getNameBlockchainRecord : String → Option BlockchainRecord × Option String
  /-- Source: `i.client().GetZonefiles(hashes)` -/
  getZonefiles : List String → Except String ZonefilesResult
  /-- Source: `res.Decode()` followed by the map lookup `zonefiles[hash]` -/
  decode : ZonefilesResult → String → String
  /-- Source: `dom.zonefileHash()` -/
  zonefileHash : Domain → String
  /-- Source: `doms.getZonefileHashes()` -/
  getZonefileHashes : List Domain → List String
  /-- Source: `dom.AddZonefile(zf)`: the receiver after the call -/
  addZonefile : Domain → String → Domain
  /-- Source: `d.ResolveProfile()`: the receiver after the call -/
  resolveProfile : Domain → Domain
  /-- the verdict of `Validate` on a profile that is present -/
  validateProfile : Profile → Bool
  /-- Source: `c.Insert(d)`: the error, if any, of the k-th insertion of the run -/
  insert : Nat → Domain → Option String

/-- Modelled from the spec: `Profile.Validate` ("a no-op/pass-through if no
profile is attached"); on a present profile it gives the verdict of
`Env.validateProfile`. `true` is a passed validation. -/
def Validate (env : Env) : Option Profile → Bool
  | none => true
  | some p => env.validateProfile p

/-- How a goroutine body ends. -/
inductive Outcome (σ : Type) where
  /-- control reached the end of the function -/
  | returned : σ → Outcome σ
  /-- Source: `panic(err)` or `log.Fatal`, the process terminates -/
  | crashed : σ → Outcome σ
  /-- parked on a channel operation that has no counterpart -/
  | parked : σ → Outcome σ

/-- The state in which the goroutine body ended. -/
def Outcome.state {σ : Type} : Outcome σ → σ
  | .returned s => s
  | .crashed s => s
  | .parked s => s

/-! ## Page scheduling: `getAllNamePagesInNamespace` -/

/-- What one iteration of the scheduling loop does, in program order. -/
inductive SchedEvent where
  /-- Source: `sem <- struct{}{}` -/
  | acquire : SchedEvent
  /-- Source: `go i.getNamePageAsync(page, ns, sem)` -/
  | spawn : Nat → String → SchedEvent
deriving DecidableEq, Repr

/-- The scheduling loop with an explicit bound on the number of iterations
left (`fuel`), so that it evaluates by structural recursion. -/
def pageLoopAux (ns : String) (iter : Nat) : Nat → Nat → List SchedEvent
  | 0, _ => []
  | fuel + 1, page =>
    if page ≤ iter then
      SchedEvent.acquire :: SchedEvent.spawn page ns :: pageLoopAux ns iter fuel (page + 1)
    else []

/-- Source: `for page := 0; page <= iter; page++ { sem <- struct{}{}; go
i.getNamePageAsync(page, ns, sem) }`, started at `page`. The loop runs at most
`iter + 1 - page` more times (`pageLoop_unfold` below: the bound is never the
reason the loop stops). -/
def pageLoop (ns : String) (iter : Nat) (page : Nat) : List SchedEvent :=
  pageLoopAux ns iter (iter + 1 - page) page

/-- Source: `getAllNamePagesInNamespace(ns)`: the statements the scheduling
goroutine executes; `Except.error` is the `panic(err)` on a failed count. -/
def getAllNamePagesInNamespace (env : Env) (ns : String) : Except String (List SchedEvent) :=
  match env.getNumNamesInNamespace ns with
  | .error err => .error err
  | .ok numNames =>
    let iter := numNames.count / namePageSize + 1
    .ok (pageLoop ns iter 0)

/-- The page indexes of the page-fetch tasks a schedule launches, in launch order. -/
def scheduledPages : List SchedEvent → List Nat
  | [] => []
  | SchedEvent.acquire :: rest => scheduledPages rest
  | SchedEvent.spawn page _ :: rest => page :: scheduledPages rest

/-- Source: the offset `page*namePageSize` a page-fetch task requests. -/
def pageOffset (page : Nat) : Nat := page * namePageSize

/-- The pages scheduled for a namespace (empty when the count fails). -/
def pagesOf (env : Env) (ns : String) : List Nat :=
  match getAllNamePagesInNamespace env ns with
  | .error _ => []
  | .ok events => scheduledPages events

/-! ## The indexer state -/

/-- Source: `i.stats`, the counters `indexByName.go` increments. -/
structure Stats where
  nameDetailsFetched : Nat
  namePagesFetched : Nat
  zonefilesFetched : Nat
  withProfiles : Nat
  sentDownResolveChan : Nat
  namesResolved : Nat
deriving DecidableEq, Repr

/-- Calls and counter increments that are attributed to one Record or to the
document store, in the order they happen. The trace is a record of what the
code did, never read by the code. -/
inductive Op where
  /-- Source: `dom.AddZonefile(...)` on the Record at the pointer -/
  | addZonefile : Nat → Op
  /-- Source: `d.ResolveProfile()` on the Record at the pointer -/
  | resolveProfile : Nat → Op
  /-- Source: `i.stats.withProfiles.Inc()` executed while handling the Record -/
  | withProfilesInc : Nat → Op
  /-- Source: `d.Profile.Validate()` with its verdict -/
  | validate : Nat → Bool → Op
  /-- Source: `i.mongoConn.Copy()` -/
  | sessionCopy : Op
  /-- Source: `c.Insert(d)` with its error -/
  | insert : Nat → Option String → Op
  /-- Source: `session.Close()` -/
  | sessionClose : Op
  /-- Source: `log.Println` / `log.Fatal` line -/
  | log : String → Op
deriving DecidableEq, Repr

/-- Source: the receiver `*Indexer` together with the heap of Records. -/
structure Indexer where
  /-- the Records, by pointer -/
  heap : Nat → Domain
  /-- the next pointer `NewDomain` allocates -/
  nextPtr : Nat
  /-- Source: `i.namePageChan` -/
  namePageChan : List (List Nat)
  /-- Source: `i.resolveChan` -/
  resolveChan : List Nat
  /-- Source: `i.dbChan` -/
  dbChan : List Nat
  /-- Source: `i.stats` -/
  stats : Stats
  /-- the block heights handed to `go i.setCB(...)` -/
  cbCalls : List Int
  /-- number of `Insert` calls made so far -/
  inserts : Nat
  /-- what has been done so far -/
  trace : List Op

/-- An indexer that has done nothing yet, over a given heap. -/
def Indexer.fresh (heap : Nat → Domain) (nextPtr : Nat) : Indexer :=
  { heap := heap, nextPtr := nextPtr, namePageChan := [], resolveChan := [], dbChan := [],
    stats := ⟨0, 0, 0, 0, 0, 0⟩, cbCalls := [], inserts := 0, trace := [] }

/-- Append to the trace. -/
def Indexer.emit (s : Indexer) (op : Op) : Indexer :=
  { s with trace := s.trace ++ [op] }

/-- Source: `go i.setCB(height)`. -/
def Indexer.setCB (s : Indexer) (height : Int) : Indexer :=
  { s with cbCalls := s.cbCalls ++ [height] }

/-- Source: `if err != nil { log.Println(prefix, err) }`. -/
def Indexer.logIf (s : Indexer) (pre : String) : Option String → Indexer
  | some err => s.emit (Op.log (pre ++ err))
  | none => s

/-- Write a Record through its pointer. -/
def Indexer.store (s : Indexer) (p : Nat) (d : Domain) : Indexer :=
  { s with heap := Function.update s.heap p d }

/-- Source: `i.stats.withProfiles.Inc()` while handling the Record at `p`. -/
def Indexer.incWithProfiles (s : Indexer) (p : Nat) : Indexer :=
  { s with stats := { s.stats with withProfiles := s.stats.withProfiles + 1 },
           trace := s.trace ++ [Op.withProfilesInc p] }

/-! ## The page-fetch task: `getNamePageAsync` -/

/-- Source: the body of `for _, name := range namePage.Names` in
`getNamePageAsync`, up to the `append`: the new Record is allocated at
`s.nextPtr`, the blockchain record fetched (an error is only logged) and
stored, the counter incremented. -/
def fetchName (env : Env) (name : String) (s : Indexer) : Indexer :=
  let dom := s.nextPtr
  let s1 := { s.store dom (NewDomain name) with nextPtr := s.nextPtr + 1 }
  let res := env.getNameBlockchainRecord name
  let s2 := s1.logIf "Error fetching name details " res.2
  let s3 := s2.store dom { s2.heap dom with blockchainRecord := res.1 }
  { s3 with stats := { s3.stats with nameDetailsFetched := s3.stats.nameDetailsFetched + 1 } }

/-- Source: `for _, name := range namePage.Names { ... }` in
`getNamePageAsync`; `domains` is the slice built so far. -/
def nameLoop (env : Env) : List String → List Nat → Indexer → List Nat × Indexer
  | [], domains, s => (domains, s)
  | name :: rest, domains, s => nameLoop env rest (domains ++ [s.nextPtr]) (fetchName env name s)

/-- Source: `getNamePageAsync(page, ns, sem)`. The second component of the
state is `len(sem)`, the number of slots of the limiter that are taken. -/
def getNamePageAsync (env : Env) (page : Nat) (ns : String) (st : Indexer × Nat) :
    Outcome (Indexer × Nat) :=
  match env.getNamesInNamespace ns (page * namePageSize) namePageSize with
  | .error _ => .crashed st
  | .ok namePage =>
    let s1 := st.1.setCB namePage.lastblock
    let r := nameLoop env namePage.names [] s1
    let s2 := { r.2 with stats :=
      { r.2.stats with namePagesFetched := r.2.stats.namePagesFetched + 1 } }
    let s3 := { s2 with namePageChan := s2.namePageChan ++ [r.1] }
    match st.2 with
    | 0 => .parked (s3, 0)
    | k + 1 => .returned (s3, k)

/-- The scheduling goroutine run with every launched task completing before
the next statement of the loop: `sem <- struct{}{}` needs a free slot among
`cap`, `go getNamePageAsync` runs the task to its end. This is the run of the
code for a ceiling of 1 and for a ceiling of 0 (where the loop parks at once);
for a larger ceiling it is one of the possible runs, and the tasks may
complete in any other order: all the runs are those of `step` and `exec`. -/
def runSchedule (env : Env) (cap : Nat) : List SchedEvent → Indexer × Nat → Outcome (Indexer × Nat)
  | [], st => .returned st
  | SchedEvent.acquire :: rest, st =>
    if st.2 < cap then runSchedule env cap rest (st.1, st.2 + 1) else .parked st
  | SchedEvent.spawn page ns :: rest, st =>
    match getNamePageAsync env page ns st with
    | .returned st1 => runSchedule env cap rest st1
    | .crashed st1 => .crashed st1
    | .parked st1 => .parked st1

/-! ## The worker loops

A worker loop `for x := range ch` is a function of the sequence of items the
worker receives, in order; `handle...Chan` is the worker that receives all the
items queued on the channel. -/

/-- Source: the body of `for _, dom := range doms` in `handleNamePageChan`;
`zonefiles` is `res.Decode()`. -/
def zonefileStep (env : Env) (zonefiles : String → String) (dom : Nat) (s : Indexer) : Indexer :=
  let zonefileHash := env.zonefileHash (s.heap dom)
  let s1 :=
    if zonefileHash ≠ "" then
      let s2 := (s.store dom (env.addZonefile (s.heap dom) (zonefiles zonefileHash))).emit
        (Op.addZonefile dom)
      if (s2.heap dom).profile ≠ none then s2.incWithProfiles dom else s2
    else s
  let s3 := { s1 with resolveChan := s1.resolveChan ++ [dom] }
  { s3 with stats :=
    { s3.stats with sentDownResolveChan := s3.stats.sentDownResolveChan + 1 } }

/-- Source: `for _, dom := range doms { ... }` in `handleNamePageChan`. -/
def zonefileLoop (env : Env) (zonefiles : String → String) : List Nat → Indexer → Indexer
  | [], s => s
  | dom :: rest, s => zonefileLoop env zonefiles rest (zonefileStep env zonefiles dom s)

/-- Source: one iteration of `for doms := range i.namePageChan` in
`handleNamePageChan`, on the batch `doms` just received; `log.Fatal` on a
failed bulk fetch. -/
def handleNamePage (env : Env) (doms : List Nat) (s : Indexer) : Outcome Indexer :=
  match env.getZonefiles (env.getZonefileHashes (doms.map s.heap)) with
  | .error err => .crashed (s.emit (Op.log err))
  | .ok res =>
    let s1 := s.setCB res.lastblock
    let s2 := { s1 with stats :=
      { s1.stats with zonefilesFetched := s1.stats.zonefilesFetched + res.zonefiles.length } }
    .returned (zonefileLoop env (env.decode res) doms s2)

/-- Source: `for doms := range i.namePageChan { ... }` of one Zonefile worker
that receives the batches `batches`. The channel is never closed, so the
worker ends parked on the channel (`i.namePageWait.Done()` is not reached)
unless `log.Fatal` ends the process. -/
def handleNamePageChanFed (env : Env) : List (List Nat) → Indexer → Outcome Indexer
  | [], s => .parked s
  | doms :: batches, s =>
    match handleNamePage env doms s with
    | .returned s1 => handleNamePageChanFed env batches s1
    | .crashed s1 => .crashed s1
    | .parked s1 => .parked s1

/-- Source: `handleNamePageChan()`, for the worker that receives every batch
queued on `i.namePageChan`. -/
def handleNamePageChan (env : Env) (s : Indexer) : Outcome Indexer :=
  handleNamePageChanFed env s.namePageChan { s with namePageChan := [] }

/-- Source: one iteration of `for d := range i.resolveChan` in
`handleResolveChan`, on the Record `d` just received. -/
def handleResolve (env : Env) (d : Nat) (s : Indexer) : Indexer :=
  let s1 :=
    if (s.heap d).profile ≠ none then
      let s2 := (s.store d (env.resolveProfile (s.heap d))).emit (Op.resolveProfile d)
      if (s2.heap d).profile ≠ none then s2.incWithProfiles d else s2
    else s
  let s3 := { s1 with dbChan := s1.dbChan ++ [d] }
  { s3 with stats := { s3.stats with namesResolved := s3.stats.namesResolved + 1 } }

/-- Source: `for d := range i.resolveChan { ... }` of one Profile worker that
receives the Records `ds`; the result is the state in which it parks. -/
def handleResolveChanFed (env : Env) : List Nat → Indexer → Indexer
  | [], s => s
  | d :: ds, s => handleResolveChanFed env ds (handleResolve env d s)

/-- Source: `handleResolveChan()`, for the worker that receives every Record
queued on `i.resolveChan`. -/
def handleResolveChan (env : Env) (s : Indexer) : Indexer :=
  handleResolveChanFed env s.resolveChan { s with resolveChan := [] }

/-- Source: one iteration of `for d := range i.dbChan` in `handleDBChan`, on
the Record `d` just received. The verdict of `Validate` is not used. -/
def handleDB (env : Env) (d : Nat) (s : Indexer) : Indexer :=
  let s1 := s.emit (Op.validate d (Validate env (s.heap d).profile))
  let s2 := s1.emit Op.sessionCopy
  let err := env.insert s2.inserts (s2.heap d)
  let s3 := { s2.emit (Op.insert d err) with inserts := s2.inserts + 1 }
  let s4 := s3.logIf "MONGO " err
  s4.emit Op.sessionClose

/-- Source: `for d := range i.dbChan { ... }` of one Persistence worker that
receives the Records `ds`; the result is the state in which it parks. -/
def handleDBChanFed (env : Env) : List Nat → Indexer → Indexer
  | [], s => s
  | d :: ds, s => handleDBChanFed env ds (handleDB env d s)

/-- Source: `handleDBChan()`, for the worker that receives every Record queued
on `i.dbChan`. -/
def handleDBChan (env : Env) (s : Indexer) : Indexer :=
  handleDBChanFed env s.dbChan { s with dbChan := [] }

/-! ## The run: `startByNames` and the interleaving of its goroutines -/

/-- Source: the fields of `i.Config` that `indexByName.go` reads. -/
structure Config where
  concurrentPageFetch : Nat
  namePageWorkers : Nat
  resolveWorkers : Nat
  dbWorkers : Nat
deriving DecidableEq, Repr

/-- One `go i.getAllNamePagesInNamespace(n)` goroutine with the limiter it
creates and the page-fetch tasks it has launched. -/
structure Fetcher where
  /-- the namespace -/
  ns : String
  /-- whether the count was fetched and `sem` created -/
  started : Bool
  /-- the statements of the scheduling loop still to execute -/
  todo : List SchedEvent
  /-- Source `len(sem)`: the slots of this goroutine's limiter that are taken -/
  sem : Nat
  /-- pages of the launched tasks that have not yet executed `<-sem` -/
  inflight : List Nat
deriving DecidableEq, Repr

/-- The whole process after `startByNames` returned. -/
structure Run where
  /-- the shared indexer -/
  ix : Indexer
  /-- one scheduling goroutine per namespace, in the order of the listing -/
  fetchers : List Fetcher
  /-- set by a `panic` or `log.Fatal`: nothing runs any more -/
  crashed : Bool

/-- A goroutine that is picked to run next. -/
inductive Action where
  /-- scheduling goroutine `k` executes its next statement -/
  | sched : Nat → Action
  /-- the in-flight task for `page` of scheduling goroutine `k` runs to its end -/
  | finish : Nat → Nat → Action
  /-- a Zonefile worker receives and handles one batch -/
  | namePageWorker : Action
  /-- a Profile worker receives and handles one Record -/
  | resolveWorker : Action
  /-- a Persistence worker receives and handles one Record -/
  | dbWorker : Action
deriving DecidableEq, Repr

/-- Source: `startByNames()`: the workers are started, the namespaces listed
(`panic` on failure) and one scheduling goroutine launched per namespace. -/
def startByNames (env : Env) (ix : Indexer) : Outcome Run :=
  match env.getAllNamespaces with
  | .error _ => .crashed { ix := ix, fetchers := [], crashed := true }
  | .ok ns =>
    .returned
      { ix := ix.setCB ns.lastblock,
        fetchers := ns.namespaces.map (fun n =>
          { ns := n, started := false, todo := [], sem := 0, inflight := [] }),
        crashed := false }

/-- The next statement of a scheduling goroutine: the count and the creation
of `sem` first, then the loop. `none`: the goroutine cannot move (it returned,
or `sem` is full); `Outcome.crashed`: the count failed and it panicked. -/
def schedStep (env : Env) (cap : Nat) (f : Fetcher) : Option (Outcome Fetcher) :=
  if f.started then
    match f.todo with
    | [] => none
    | SchedEvent.acquire :: rest =>
      if f.sem < cap then some (.returned { f with sem := f.sem + 1, todo := rest }) else none
    | SchedEvent.spawn page _ :: rest =>
      some (.returned { f with inflight := f.inflight ++ [page], todo := rest })
  else
    match getAllNamePagesInNamespace env f.ns with
    | .error _ => some (.crashed f)
    | .ok events => some (.returned { f with started := true, todo := events })

/-- One goroutine moves. `none`: the chosen goroutine cannot move in this state. -/
def step (env : Env) (cfg : Config) (a : Action) (r : Run) : Option Run :=
  if r.crashed then none
  else
    match a with
    | .sched k =>
      match r.fetchers.get? k with
      | none => none
      | some f =>
        match schedStep env cfg.concurrentPageFetch f with
        | none => none
        | some (.returned f1) => some { r with fetchers := r.fetchers.set k f1 }
        | some (.crashed _) => some { r with crashed := true }
        | some (.parked _) => none
    | .finish k page =>
      match r.fetchers.get? k with
      | none => none
      | some f =>
        if page ∈ f.inflight then
          match getNamePageAsync env page f.ns (r.ix, f.sem) with
          | .returned st =>
            some { r with ix := st.1, fetchers :=
              r.fetchers.set k { f with sem := st.2, inflight := f.inflight.erase page } }
          | .crashed st => some { r with ix := st.1, crashed := true }
          | .parked _ => none
        else none
    | .namePageWorker =>
      if cfg.namePageWorkers = 0 then none
      else
        match r.ix.namePageChan with
        | [] => none
        | doms :: queue =>
          match handleNamePage env doms { r.ix with namePageChan := queue } with
          | .returned s => some { r with ix := s }
          | .crashed s => some { r with ix := s, crashed := true }
          | .parked _ => none
    | .resolveWorker =>
      if cfg.resolveWorkers = 0 then none
      else
        match r.ix.resolveChan with
        | [] => none
        | d :: queue => some { r with ix := handleResolve env d { r.ix with resolveChan := queue } }
    | .dbWorker =>
      if cfg.dbWorkers = 0 then none
      else
        match r.ix.dbChan with
        | [] => none
        | d :: queue => some { r with ix := handleDB env d { r.ix with dbChan := queue } }

/-- Run a sequence of moves. -/
def exec (env : Env) (cfg : Config) : List Action → Run → Option Run
  | [], r => some r
  | a :: rest, r =>
    match step env cfg a r with
    | none => none
    | some r1 => exec env cfg rest r1

/-- The states a run started by `startByNames` can be in: those reached from
the state `startByNames` returns by some sequence of moves. -/
def reachable (env : Env) (cfg : Config) (ix : Indexer) (acts : List Action) : Option Run :=
  match startByNames env ix with
  | .returned r => exec env cfg acts r
  | .crashed _ => none
  | .parked _ => none

/-- Number of page-fetch tasks in flight over the whole run. -/
def Run.inflightTotal (r : Run) : Nat :=
  (r.fetchers.map (fun f => f.inflight.length)).sum

/-- The Record `getNamePageAsync` builds for a name. -/
def recordFor (env : Env) (name : String) : Domain :=
  { NewDomain name with blockchainRecord := (env.getNameBlockchainRecord name).1 }

/-! ## A concrete environment -/

/-- Modelled from the spec: the collaborators of `indexByName.go` over a
namespace whose listing is `names`. The naming service answers a page request
with `names[offset : offset+limit]` and every call succeeds; the zone-file
hash "is derived from the blockchain record" and is empty without one;
`getZonefileHashes` collects "the distinct non-empty zone-file hashes";
`AddZonefile` attaches the decoded content ("attaching nothing if the hash is
absent from the response") and the profile marker the zone file yields;
`ResolveProfile` returns the profile for the marker. -/
def specEnv (names : List String) : Env where
  getAllNamespaces := .ok { namespaces := ["id"], lastblock := 1 }
  getNumNamesInNamespace := fun _ => .ok { count := names.length }
  getNamesInNamespace := fun _ offset limit =>
    .ok { names := (names.drop offset).take limit, lastblock := 1 }
  getNameBlockchainRecord := fun name => (some { valueHash := "h" ++ name }, none)
  getZonefiles := fun hashes => .ok { zonefiles := hashes.map (fun h => (h, "z" ++ h)), lastblock := 1 }
  decode := fun res hash => (res.zonefiles.lookup hash).getD ""
  zonefileHash := fun d =>
    match d.blockchainRecord with
    | some r => r.valueHash
    | none => ""
  getZonefileHashes := fun doms =>
    ((doms.map (fun d =>
      match d.blockchainRecord with
      | some r => r.valueHash
      | none => "")).filter (fun h => h ≠ "")).dedup
  addZonefile := fun d zf =>
    if zf = "" then d else { d with zonefile := some zf, profile := some { body := zf } }
  resolveProfile := fun d => d
  validateProfile := fun p => p.body.length ≤ 8
  insert := fun _ _ => none

/-- Source: `getAllNamePagesInNamespace(ns)` run with every launched task
completing at once: the count (`panic` on failure), `sem := make(chan
struct{}, cap)` (no slot taken), then the scheduling loop. The result carries
the indexer and `len(sem)`. -/
def fetchNamespace (env : Env) (cap : Nat) (ns : String) (s : Indexer) : Outcome (Indexer × Nat) :=
  match getAllNamePagesInNamespace env ns with
  | .error _ => .crashed (s, 0)
  | .ok events => runSchedule env cap events (s, 0)

/-- Whether the goroutine body ran to its end. -/
def Outcome.isReturned {σ : Type} : Outcome σ → Bool
  | .returned _ => true
  | _ => false

/-- Whether the goroutine body ended the process. -/
def Outcome.isCrashed {σ : Type} : Outcome σ → Bool
  | .crashed _ => true
  | _ => false

/-- An indexer with empty channels and zeroed counters over an empty heap. -/
def emptyIndexer : Indexer := Indexer.fresh (fun _ => NewDomain "") 0

/-- The environment `specEnv []` with a naming service whose page listing fails. -/
def listingDownEnv : Env :=
  { specEnv [] with getNamesInNamespace := fun _ _ _ => .error "connection refused" }

/-- The environment `specEnv []` with two namespaces, each without names. -/
def twoNamespacesEnv : Env :=
  { specEnv [] with getAllNamespaces := .ok { namespaces := ["a", "b"], lastblock := 1 } }

/-- A configuration with a single page-fetch slot and one worker per pool. -/
def oneSlotConfig : Config :=
  { concurrentPageFetch := 1, namePageWorkers := 1, resolveWorkers := 1, dbWorkers := 1 }

/-- A schedule in which every `spawn` directly follows its `acquire`. -/
def alternates : List SchedEvent → Bool
  | [] => true
  | SchedEvent.acquire :: SchedEvent.spawn _ _ :: rest => alternates rest
  | _ => false

/-- The slots a scheduling goroutine holds for a task it has not launched yet:
one between `sem <- struct{}{}` and the `go` statement, none otherwise. -/
def holding : List SchedEvent → Nat
  | SchedEvent.spawn _ _ :: _ => 1
  | _ => 0

/-- The statements left form a suffix of a well-formed loop. -/
def wellFormed : List SchedEvent → Bool
  | SchedEvent.spawn _ _ :: rest => alternates rest
  | todo => alternates todo

/-- The limiter invariant of one scheduling goroutine: the slots taken are
those of its in-flight tasks plus the one it may hold itself, within `cap`. -/
def Fetcher.inv (cap : Nat) (f : Fetcher) : Prop :=
  wellFormed f.todo = true ∧ f.inflight.length + holding f.todo = f.sem ∧ f.sem ≤ cap ∧
    (f.started = false → f.todo = [])

/-- A state of the run over `twoNamespacesEnv`: the first scheduling goroutine
has fetched its count, taken the slot and launched the task for page 0; the
second has not moved yet. -/
def firstTaskLaunched : Run :=
  { ix := emptyIndexer.setCB 1,
    fetchers :=
      [{ ns := "a", started := true,
         todo := [SchedEvent.acquire, SchedEvent.spawn 1 "a"], sem := 1, inflight := [0] },
       { ns := "b", started := false, todo := [], sem := 0, inflight := [] }],
    crashed := false }

/-- Whether a traced operation is a zone-file attachment, a profile resolution
or an increment of the with-profiles counter for the Record at `p`. -/
def Op.touches (p : Nat) : Op → Bool
  | .addZonefile q => decide (q = p)
  | .resolveProfile q => decide (q = p)
  | .withProfilesInc q => decide (q = p)
  | _ => false

/-- A state with one queued batch of two Records: the Record at 0 is the one
`getNamePageAsync` builds for the name "a" over `specEnv` (zone-file hash
"ha"); the Record at 1 is the one it builds for "b" when the blockchain-record
fetch returned nothing (empty zone-file hash). -/
def twoRecords : Indexer :=
  { emptyIndexer with
    heap := fun p => if p = 0 then recordFor (specEnv []) "a" else NewDomain "b",
    nextPtr := 2,
    namePageChan := [[0, 1]] }

/-- The pipeline over `specEnv ["a"]` up to the persistence queue: the
namespace is fetched with one slot, then one Zonefile worker and one Profile
worker drain their channels. -/
def oneNameResolved : Indexer :=
  handleResolveChan (specEnv ["a"])
    (handleNamePageChan (specEnv ["a"])
      (fetchNamespace (specEnv ["a"]) 1 "id" emptyIndexer).state.1).state

/-- The environment `specEnv []` with a naming service whose bulk zone-file
fetch fails whenever the hash "hb" is requested. -/
def zonefilesDownEnv : Env :=
  { specEnv [] with
    getZonefiles := fun hashes =>
      if "hb" ∈ hashes then .error "zonefiles unavailable"
      else .ok { zonefiles := hashes.map (fun h => (h, "z" ++ h)), lastblock := 1 } }

/-- A state with two queued batches of one Record each: the Record at 0 is the
one built for the name "b" (zone-file hash "hb"), the Record at 1 the one
built for the name "c" (zone-file hash "hc"). -/
def twoBatches : Indexer :=
  { emptyIndexer with
    heap := fun p => if p = 0 then recordFor (specEnv []) "b" else recordFor (specEnv []) "c",
    nextPtr := 2,
    namePageChan := [[0], [1]] }

/-- A state with one Record on the persistence queue whose profile fails the
validation of `specEnv` (its body is longer than 8 characters). -/
def invalidProfileQueued : Indexer :=
  { emptyIndexer with
    heap := fun _ =>
      { name := "a", blockchainRecord := some { valueHash := "ha" }, zonefile := some "zha",
        profile := some { body := "not a profile" } },
    nextPtr := 1,
    dbChan := [0] }

/-- A call on the document store, without its outcome. -/
inductive StoreCall where
  /-- Source: `i.mongoConn.Copy()` -/
  | copy : StoreCall
  /-- Source: `c.Insert(d)` for the Record at the pointer -/
  | insert : Nat → StoreCall
  /-- Source: `session.Close()` -/
  | close : StoreCall
deriving DecidableEq, Repr

/-- The calls on the document store that a trace records, in order. -/
def storeCalls : List Op → List StoreCall
  | [] => []
  | Op.sessionCopy :: rest => StoreCall.copy :: storeCalls rest
  | Op.insert d _ :: rest => StoreCall.insert d :: storeCalls rest
  | Op.sessionClose :: rest => StoreCall.close :: storeCalls rest
  | _ :: rest => storeCalls rest

/-- The statements of the loop from `page` on, page by page. -/
theorem pageLoopAux_eq (ns : String) (iter : Nat) :
    ∀ fuel page, fuel = iter + 1 - page →
      pageLoopAux ns iter fuel page =
        (List.range' page fuel).flatMap
          (fun q => [SchedEvent.acquire, SchedEvent.spawn q ns]) := by
  intro fuel
  induction fuel with
  | zero => intro page _; simp [pageLoopAux]
  | succ fuel ih =>
    intro page hf
    have h : page ≤ iter := by omega
    simp [pageLoopAux, h, List.range'_succ, ih (page + 1) (by omega)]

/-- The pages launched by a page-by-page schedule. -/
theorem scheduledPages_flatMap (ns : String) (pages : List Nat) :
    scheduledPages (pages.flatMap (fun q => [SchedEvent.acquire, SchedEvent.spawn q ns]))
      = pages := by
  induction pages with
  | nil => simp [scheduledPages]
  | cons q rest ih => simpa [scheduledPages] using ih

/-- The statements of the scheduling loop for a count of `n` names. -/
theorem pageLoop_events (ns : String) (n : Nat) :
    pageLoop ns (n / namePageSize + 1) 0
      = (List.range (n / 100 + 2)).flatMap
          (fun page => [SchedEvent.acquire, SchedEvent.spawn page ns]) := by
  unfold pageLoop
  rw [pageLoopAux_eq ns _ _ 0 rfl, List.range_eq_range']
  simp [namePageSize]

/-- C1 (as amended): when the count of a namespace is `n`,
`getAllNamePagesInNamespace` executes, for each page index `0, 1, ..., n/100 + 1`
in this order, one `sem <- struct{}{}` followed by one `go getNamePageAsync`
for that page and this namespace, and nothing else: every page index up to
`n/100 + 1` (integer division) is launched exactly once, no other index is
launched, and the offsets requested are the multiples `page * 100`. -/
theorem getAllNamePagesInNamespace_pages (env : Env) (ns : String) (n : Nat)
    (hcount : env.getNumNamesInNamespace ns = .ok { count := n }) :
    ∃ events, getAllNamePagesInNamespace env ns = .ok events ∧
      events = (List.range (n / 100 + 2)).flatMap
        (fun page => [SchedEvent.acquire, SchedEvent.spawn page ns]) ∧
      scheduledPages events = List.range (n / 100 + 2) ∧
      (∀ page, (scheduledPages events).count page = if page ≤ n / 100 + 1 then 1 else 0) ∧
      (scheduledPages events).map pageOffset
        = (List.range (n / 100 + 2)).map (fun page => page * 100) := by
  have hev := pageLoop_events ns n
  refine ⟨_, by simp only [getAllNamePagesInNamespace, hcount], hev, ?_, ?_, ?_⟩
  · rw [hev, scheduledPages_flatMap]
  · intro page
    rw [hev, scheduledPages_flatMap]
    by_cases h : page ≤ n / 100 + 1
    · rw [if_pos h]
      exact List.count_eq_one_of_mem (List.nodup_range _) (List.mem_range.mpr (by omega))
    · rw [if_neg h]
      exact List.count_eq_zero.mpr (fun hm => h (by have := List.mem_range.mp hm; omega))
  · rw [hev, scheduledPages_flatMap]
    rfl

/-- C1, witness of the amended statement: a namespace of three names. -/
theorem getAllNamePagesInNamespace_pages_witness :
    (specEnv ["a", "b", "c"]).getNumNamesInNamespace "id" = .ok { count := 3 } ∧
    ∃ events, getAllNamePagesInNamespace (specEnv ["a", "b", "c"]) "id" = .ok events ∧
      events = (List.range (3 / 100 + 2)).flatMap
        (fun page => [SchedEvent.acquire, SchedEvent.spawn page "id"]) ∧
      scheduledPages events = List.range (3 / 100 + 2) ∧
      (∀ page, (scheduledPages events).count page = if page ≤ 3 / 100 + 1 then 1 else 0) ∧
      (scheduledPages events).map pageOffset
        = (List.range (3 / 100 + 2)).map (fun page => page * 100) :=
  ⟨rfl, getAllNamePagesInNamespace_pages (specEnv ["a", "b", "c"]) "id" 3 rfl⟩

/-- C1, counterexample to the claim as stated: for a namespace with zero names
two page-fetch tasks are launched, for the pages 0 and 1 (offsets 0 and 100),
although page 1 is above `ceil(0/100) = 0`; the same happens at every multiple
of the page size, for instance 100 names give the pages 0, 1, 2. -/
theorem getAllNamePagesInNamespace_zero_names :
    pagesOf (specEnv []) "id" = [0, 1] ∧
    (pagesOf (specEnv []) "id").map pageOffset = [0, 100] ∧
    (1 ∈ pagesOf (specEnv []) "id" ∧ ¬ 1 ≤ (0 + 99) / 100) ∧
    (pagesOf (specEnv (List.replicate 100 "n")) "id" = [0, 1, 2] ∧ ¬ 2 ≤ (100 + 99) / 100) := by
  decide

/-! ## The page-fetch task -/

theorem logIf_heap (s : Indexer) (pre : String) (err : Option String) :
    (s.logIf pre err).heap = s.heap := by
  cases err <;> rfl

theorem logIf_nextPtr (s : Indexer) (pre : String) (err : Option String) :
    (s.logIf pre err).nextPtr = s.nextPtr := by
  cases err <;> rfl

theorem logIf_namePageChan (s : Indexer) (pre : String) (err : Option String) :
    (s.logIf pre err).namePageChan = s.namePageChan := by
  cases err <;> rfl

theorem logIf_stats (s : Indexer) (pre : String) (err : Option String) :
    (s.logIf pre err).stats = s.stats := by
  cases err <;> rfl

theorem logIf_inserts (s : Indexer) (pre : String) (err : Option String) :
    (s.logIf pre err).inserts = s.inserts := by
  cases err <;> rfl

theorem logIf_dbChan (s : Indexer) (pre : String) (err : Option String) :
    (s.logIf pre err).dbChan = s.dbChan := by
  cases err <;> rfl

theorem logIf_trace (s : Indexer) (pre : String) (err : Option String) :
    (s.logIf pre err).trace = s.trace ++ (err.map (fun e => Op.log (pre ++ e))).toList := by
  cases err <;> simp [Indexer.logIf, Indexer.emit]

theorem fetchName_nextPtr (env : Env) (name : String) (s : Indexer) :
    (fetchName env name s).nextPtr = s.nextPtr + 1 := by
  simp [fetchName, Indexer.store, logIf_nextPtr]

theorem fetchName_heap (env : Env) (name : String) (s : Indexer) :
    (fetchName env name s).heap = Function.update s.heap s.nextPtr (recordFor env name) := by
  simp [fetchName, Indexer.store, logIf_heap, recordFor]

theorem fetchName_namePageChan (env : Env) (name : String) (s : Indexer) :
    (fetchName env name s).namePageChan = s.namePageChan := by
  simp [fetchName, Indexer.store, logIf_namePageChan]

/-- The name loop allocates one fresh Record per name, in order, and leaves
the Records allocated before untouched. -/
theorem nameLoop_spec (env : Env) :
    ∀ (names : List String) (domains : List Nat) (s : Indexer),
      (nameLoop env names domains s).1 = domains ++ List.range' s.nextPtr names.length ∧
      (nameLoop env names domains s).2.nextPtr = s.nextPtr + names.length ∧
      (nameLoop env names domains s).2.namePageChan = s.namePageChan ∧
      (∀ p, p < s.nextPtr → (nameLoop env names domains s).2.heap p = s.heap p) ∧
      (List.range' s.nextPtr names.length).map (nameLoop env names domains s).2.heap
        = names.map (recordFor env) := by
  intro names
  induction names with
  | nil => intro domains s; simp [nameLoop]
  | cons name rest ih =>
    intro domains s
    obtain ⟨h1, h2, h3, h4, h5⟩ := ih (domains ++ [s.nextPtr]) (fetchName env name s)
    rw [fetchName_nextPtr] at h1 h2 h4 h5
    rw [fetchName_namePageChan] at h3
    simp only [nameLoop, List.length_cons, List.range'_succ, List.map_cons]
    refine ⟨?_, ?_, h3, ?_, ?_⟩
    · rw [h1]; simp
    · rw [h2]; omega
    · intro p hp
      rw [h4 p (by omega), fetchName_heap, Function.update_noteq (by omega)]
    · rw [h5, h4 s.nextPtr (by omega), fetchName_heap, Function.update_same]

/-- A page-fetch task whose listing call succeeds returns, having emitted one
batch of fresh Records, one per listed name in order, and released one slot. -/
theorem getNamePageAsync_returns (env : Env) (page : Nat) (ns : String) (np : NamePage)
    (s : Indexer) (k : Nat)
    (hlist : env.getNamesInNamespace ns (page * namePageSize) namePageSize = .ok np) :
    ∃ s1, getNamePageAsync env page ns (s, k + 1) = .returned (s1, k) ∧
      s1.namePageChan = s.namePageChan ++ [List.range' s.nextPtr np.names.length] ∧
      s1.nextPtr = s.nextPtr + np.names.length ∧
      (∀ p, p < s.nextPtr → s1.heap p = s.heap p) ∧
      (List.range' s.nextPtr np.names.length).map s1.heap = np.names.map (recordFor env) := by
  obtain ⟨h1, h2, h3, h4, h5⟩ := nameLoop_spec env np.names [] (s.setCB np.lastblock)
  have hrun : getNamePageAsync env page ns (s, k + 1) = .returned
      ({ (nameLoop env np.names [] (s.setCB np.lastblock)).2 with
          stats := { (nameLoop env np.names [] (s.setCB np.lastblock)).2.stats with
            namePagesFetched :=
              (nameLoop env np.names [] (s.setCB np.lastblock)).2.stats.namePagesFetched + 1 },
          namePageChan := (nameLoop env np.names [] (s.setCB np.lastblock)).2.namePageChan
            ++ [(nameLoop env np.names [] (s.setCB np.lastblock)).1] }, k) := by
    simp only [getNamePageAsync, hlist]
  refine ⟨_, hrun, ?_, ?_, ?_, ?_⟩
  · show _ ++ [_] = _
    rw [h3, h1]
    rfl
  · exact h2
  · exact h4
  · exact h5

/-- C9 (as amended): a page-fetch task launched holding a slot (`k + 1` slots
taken, `k` before its launch) releases exactly that one slot when its page
listing succeeds, whatever the per-name fetches do: it returns with `k` slots
taken. When the page listing fails the task panics before `<-sem`: the process
ends with the slot still taken and nothing emitted. -/
theorem getNamePageAsync_release (env : Env) (page : Nat) (ns : String) (s : Indexer) (k : Nat) :
    match env.getNamesInNamespace ns (page * namePageSize) namePageSize with
    | .ok _ => ∃ s1, getNamePageAsync env page ns (s, k + 1) = .returned (s1, k)
    | .error _ => getNamePageAsync env page ns (s, k + 1) = .crashed (s, k + 1) := by
  cases h : env.getNamesInNamespace ns (page * namePageSize) namePageSize with
  | ok np =>
    obtain ⟨s1, hr, -⟩ := getNamePageAsync_returns env page ns np s k h
    exact ⟨s1, hr⟩
  | error err => simp only [getNamePageAsync, h]

/-- C9, counterexample to the claim as stated: over a naming service whose
page listing fails, a task launched holding a slot (no slot taken before its
launch, one taken with it) panics instead of returning and leaves its slot
taken: one slot is taken when it ends, not zero as before its launch. -/
theorem getNamePageAsync_listing_fails :
    (getNamePageAsync listingDownEnv 0 "id" (emptyIndexer, 0 + 1)).isCrashed = true ∧
    (getNamePageAsync listingDownEnv 0 "id" (emptyIndexer, 0 + 1)).isReturned = false ∧
    (getNamePageAsync listingDownEnv 0 "id" (emptyIndexer, 0 + 1)).state.2 = 1 ∧
    (getNamePageAsync listingDownEnv 0 "id" (emptyIndexer, 0 + 1)).state.2 ≠ 0 := by
  decide

/-- The number of slots a returning page-fetch task leaves taken. -/
theorem getNamePageAsync_sem (env : Env) (page : Nat) (ns : String) (s : Indexer) (sem : Nat)
    (st : Indexer × Nat) (h : getNamePageAsync env page ns (s, sem) = .returned st) :
    st.2 + 1 = sem := by
  unfold getNamePageAsync at h
  cases hl : env.getNamesInNamespace ns (page * namePageSize) namePageSize with
  | error err => simp [hl] at h
  | ok np =>
    cases sem with
    | zero => simp [hl] at h
    | succ k =>
      simp only [hl, Outcome.returned.injEq] at h
      rw [← h]

/-! ## The limiter -/

theorem alternates_flatMap (ns : String) (pages : List Nat) :
    alternates (pages.flatMap (fun q => [SchedEvent.acquire, SchedEvent.spawn q ns])) = true := by
  induction pages with
  | nil => rfl
  | cons q rest ih => simpa [alternates] using ih

/-- The schedule of a namespace is a well-formed loop. -/
theorem getAllNamePagesInNamespace_alternates (env : Env) (ns : String)
    (events : List SchedEvent) (h : getAllNamePagesInNamespace env ns = .ok events) :
    alternates events = true := by
  unfold getAllNamePagesInNamespace at h
  cases hc : env.getNumNamesInNamespace ns with
  | error err => simp [hc] at h
  | ok numNames =>
    simp only [hc, Except.ok.injEq] at h
    rw [← h, pageLoop, pageLoopAux_eq ns _ _ 0 rfl]
    exact alternates_flatMap ns _

theorem alternates_wellFormed (todo : List SchedEvent) (h : alternates todo = true) :
    wellFormed todo = true ∧ holding todo = 0 := by
  cases todo with
  | nil => exact ⟨rfl, rfl⟩
  | cons e rest =>
    cases e with
    | acquire => exact ⟨h, rfl⟩
    | spawn p ns => simp [alternates] at h

/-- A statement of a scheduling goroutine keeps its limiter invariant. -/
theorem schedStep_inv (env : Env) (cap : Nat) (f f1 : Fetcher) (hinv : f.inv cap)
    (h : schedStep env cap f = some (.returned f1)) : f1.inv cap := by
  obtain ⟨hwf, hsem, hcap, hnew⟩ := hinv
  unfold schedStep at h
  by_cases hs : f.started = true
  · rw [if_pos hs] at h
    cases htodo : f.todo with
    | nil => simp [htodo] at h
    | cons e rest =>
      rw [htodo] at h hwf hsem
      cases e with
      | acquire =>
        by_cases hlt : f.sem < cap
        · simp only [hlt, if_true, Option.some.injEq, Outcome.returned.injEq] at h
          subst h
          cases rest with
          | nil => simp [wellFormed, alternates] at hwf
          | cons e2 rest2 =>
            cases e2 with
            | acquire => simp [wellFormed, alternates] at hwf
            | spawn p ns =>
              refine ⟨?_, ?_, ?_, ?_⟩
              · simpa [wellFormed, alternates] using hwf
              · simp only [holding] at hsem ⊢; omega
              · exact hlt
              · intro hf; simp [hs] at hf
        · simp [hlt] at h
      | spawn p ns =>
        simp only [Option.some.injEq, Outcome.returned.injEq] at h
        subst h
        have hrest : alternates rest = true := by simpa [wellFormed] using hwf
        obtain ⟨hw2, hh2⟩ := alternates_wellFormed rest hrest
        refine ⟨hw2, ?_, hcap, ?_⟩
        · simp only [holding] at hsem
          simp only [List.length_append, List.length_singleton, hh2]
          omega
        · intro hf; simp [hs] at hf
  · rw [if_neg hs] at h
    cases hg : getAllNamePagesInNamespace env f.ns with
    | error err => simp [hg] at h
    | ok events =>
      simp only [hg, Option.some.injEq, Outcome.returned.injEq] at h
      subst h
      have hal := getAllNamePagesInNamespace_alternates env f.ns events hg
      obtain ⟨hw2, hh2⟩ := alternates_wellFormed events hal
      have hnil : f.todo = [] := hnew (by simpa using hs)
      rw [hnil] at hsem
      refine ⟨hw2, ?_, hcap, ?_⟩
      · simp only [hh2]
        simpa [holding] using hsem
      · intro hf; simp at hf

/-- A move of the run keeps the limiter invariant of every scheduling
goroutine, and neither adds nor removes a scheduling goroutine. -/
theorem step_inv (env : Env) (cfg : Config) (a : Action) (r r1 : Run)
    (hinv : ∀ f ∈ r.fetchers, f.inv cfg.concurrentPageFetch)
    (h : step env cfg a r = some r1) :
    (∀ f ∈ r1.fetchers, f.inv cfg.concurrentPageFetch) ∧
      r1.fetchers.length = r.fetchers.length := by
  unfold step at h
  split at h
  · simp at h
  · cases a with
    | sched k =>
      simp only at h
      cases hget : r.fetchers[k]? with
      | none => simp [hget] at h
      | some f =>
        have hf : f ∈ r.fetchers := List.getElem?_mem hget
        cases hstep : schedStep env cfg.concurrentPageFetch f with
        | none => simp [hget, hstep] at h
        | some o =>
          cases o with
          | returned f1 =>
            simp only [List.get?_eq_getElem?, hget, hstep, Option.some.injEq] at h
            subst h
            refine ⟨?_, by simp⟩
            intro g hg
            rcases List.mem_or_eq_of_mem_set hg with hg | hg
            · exact hinv g hg
            · rw [hg]; exact schedStep_inv env _ f f1 (hinv f hf) hstep
          | crashed f1 =>
            simp only [List.get?_eq_getElem?, hget, hstep, Option.some.injEq] at h
            subst h
            exact ⟨hinv, rfl⟩
          | parked f1 => simp [hget, hstep] at h
    | finish k page =>
      simp only at h
      cases hget : r.fetchers[k]? with
      | none => simp [hget] at h
      | some f =>
        have hf : f ∈ r.fetchers := List.getElem?_mem hget
        obtain ⟨hwf, hsem, hcap, hnew⟩ := hinv f hf
        by_cases hp : page ∈ f.inflight
        · simp only [List.get?_eq_getElem?, hget, hp, if_true] at h
          cases hrun : getNamePageAsync env page f.ns (r.ix, f.sem) with
          | returned st =>
            simp only [hrun, Option.some.injEq] at h
            subst h
            have hs := getNamePageAsync_sem env page f.ns r.ix f.sem st hrun
            refine ⟨?_, by simp⟩
            intro g hg
            rcases List.mem_or_eq_of_mem_set hg with hg | hg
            · exact hinv g hg
            · rw [hg]
              refine ⟨hwf, ?_, by simp only; omega, hnew⟩
              have hpos := List.length_pos_of_mem hp
              simp only [List.length_erase_of_mem hp]
              omega
          | crashed st =>
            simp only [hrun, Option.some.injEq] at h
            subst h
            exact ⟨hinv, rfl⟩
          | parked st => simp [hrun] at h
        · simp [hget, hp] at h
    | namePageWorker =>
      simp only at h
      split at h
      · simp at h
      · split at h
        · simp at h
        · split at h
          · simp only [Option.some.injEq] at h; subst h; exact ⟨hinv, rfl⟩
          · simp only [Option.some.injEq] at h; subst h; exact ⟨hinv, rfl⟩
          · simp at h
    | resolveWorker =>
      simp only at h
      split at h
      · simp at h
      · split at h
        · simp at h
        · simp only [Option.some.injEq] at h; subst h; exact ⟨hinv, rfl⟩
    | dbWorker =>
      simp only at h
      split at h
      · simp at h
      · split at h
        · simp at h
        · simp only [Option.some.injEq] at h; subst h; exact ⟨hinv, rfl⟩

/-- Every sequence of moves keeps the limiter invariant. -/
theorem exec_inv (env : Env) (cfg : Config) :
    ∀ (acts : List Action) (r r1 : Run),
      (∀ f ∈ r.fetchers, f.inv cfg.concurrentPageFetch) → exec env cfg acts r = some r1 →
      (∀ f ∈ r1.fetchers, f.inv cfg.concurrentPageFetch) ∧
        r1.fetchers.length = r.fetchers.length := by
  intro acts
  induction acts with
  | nil =>
    intro r r1 hinv h
    simp only [exec, Option.some.injEq] at h
    subst h
    exact ⟨hinv, rfl⟩
  | cons a rest ih =>
    intro r r1 hinv h
    simp only [exec] at h
    cases hs : step env cfg a r with
    | none => simp [hs] at h
    | some r2 =>
      simp only [hs] at h
      obtain ⟨h1, h2⟩ := step_inv env cfg a r r2 hinv hs
      obtain ⟨h3, h4⟩ := ih r2 r1 h1 h
      exact ⟨h3, by rw [h4, h2]⟩

/-- Summing a bound over the scheduling goroutines. -/
theorem inflight_sum_le (cap : Nat) (fs : List Fetcher)
    (h : ∀ f ∈ fs, f.inflight.length ≤ cap) :
    (fs.map (fun f => f.inflight.length)).sum ≤ fs.length * cap := by
  induction fs with
  | nil => simp
  | cons f rest ih =>
    have h1 := h f (List.mem_cons_self _ _)
    have h2 := ih (fun g hg => h g (List.mem_cons_of_mem _ hg))
    simp only [List.map_cons, List.sum_cons, List.length_cons, Nat.succ_mul]
    omega

/-- C3 (as amended): in every state a run started by `startByNames` can reach,
each scheduling goroutine (one per namespace, each with the limiter it created)
has at most `Config.ConcurrentPageFetch` page-fetch tasks in flight; there are
as many scheduling goroutines as namespaces, so over the whole run the
number of in-flight page-fetch tasks is at most the number of namespaces times
`Config.ConcurrentPageFetch`. -/
theorem inflight_per_namespace (env : Env) (cfg : Config) (ix : Indexer) (acts : List Action)
    (nss : Namespaces) (r : Run)
    (hns : env.getAllNamespaces = .ok nss)
    (hreach : reachable env cfg ix acts = some r) :
    (∀ f ∈ r.fetchers, f.inflight.length ≤ cfg.concurrentPageFetch) ∧
    r.fetchers.length = nss.namespaces.length ∧
    r.inflightTotal ≤ nss.namespaces.length * cfg.concurrentPageFetch := by
  simp only [reachable, startByNames, hns] at hreach
  have hinit : ∀ f ∈ nss.namespaces.map (fun n =>
      ({ ns := n, started := false, todo := [], sem := 0, inflight := [] } : Fetcher)),
      f.inv cfg.concurrentPageFetch := by
    intro f hf
    obtain ⟨n, -, rfl⟩ := List.mem_map.mp hf
    exact ⟨rfl, rfl, Nat.zero_le _, fun _ => rfl⟩
  obtain ⟨hinv, hlen⟩ := exec_inv env cfg acts _ r hinit hreach
  simp only [List.length_map] at hlen
  have hbound : ∀ f ∈ r.fetchers, f.inflight.length ≤ cfg.concurrentPageFetch := by
    intro f hf
    obtain ⟨-, hsem, hcap, -⟩ := hinv f hf
    omega
  refine ⟨hbound, hlen, ?_⟩
  rw [← hlen]
  exact inflight_sum_le _ _ hbound

/-- C3, witness: two namespaces and one slot; the first scheduling goroutine
has fetched its count, taken the slot and launched the task for page 0. -/
theorem inflight_per_namespace_witness :
    twoNamespacesEnv.getAllNamespaces = .ok { namespaces := ["a", "b"], lastblock := 1 } ∧
    reachable twoNamespacesEnv oneSlotConfig emptyIndexer
        [Action.sched 0, Action.sched 0, Action.sched 0] = some firstTaskLaunched ∧
    ((∀ f ∈ firstTaskLaunched.fetchers, f.inflight.length ≤ oneSlotConfig.concurrentPageFetch) ∧
      firstTaskLaunched.fetchers.length = (["a", "b"] : List String).length ∧
      firstTaskLaunched.inflightTotal
        ≤ (["a", "b"] : List String).length * oneSlotConfig.concurrentPageFetch) :=
  ⟨rfl, rfl,
    inflight_per_namespace twoNamespacesEnv oneSlotConfig emptyIndexer
      [Action.sched 0, Action.sched 0, Action.sched 0]
      { namespaces := ["a", "b"], lastblock := 1 } firstTaskLaunched rfl rfl⟩

/-- C3, counterexample to the claim as stated: with two namespaces and
`ConcurrentPageFetch = 1`, after each scheduling goroutine has fetched its
count, taken the slot of its own limiter and launched its task for page 0,
two page-fetch tasks are in flight at once in the run, more than the ceiling. -/
theorem inflight_exceeds_ceiling :
    (reachable twoNamespacesEnv oneSlotConfig emptyIndexer
        [Action.sched 0, Action.sched 0, Action.sched 0,
         Action.sched 1, Action.sched 1, Action.sched 1]).map Run.inflightTotal = some 2 ∧
    ¬ 2 ≤ oneSlotConfig.concurrentPageFetch := by
  decide

/-! ## The Zonefile and Profile stages -/

/-- What the body of the zone-file loop does to the channels, to the counters
of the two stages and to the other Records. -/
theorem zonefileStep_frame (env : Env) (zonefiles : String → String) (dom : Nat) (s : Indexer) :
    (zonefileStep env zonefiles dom s).resolveChan = s.resolveChan ++ [dom] ∧
    (zonefileStep env zonefiles dom s).dbChan = s.dbChan ∧
    (zonefileStep env zonefiles dom s).stats.sentDownResolveChan
      = s.stats.sentDownResolveChan + 1 ∧
    (zonefileStep env zonefiles dom s).stats.namesResolved = s.stats.namesResolved ∧
    (∀ q, q ≠ dom → (zonefileStep env zonefiles dom s).heap q = s.heap q) := by
  unfold zonefileStep
  by_cases hh : env.zonefileHash (s.heap dom) = ""
  · simp [hh]
  · by_cases hp : (env.addZonefile (s.heap dom)
        (zonefiles (env.zonefileHash (s.heap dom)))).profile = none
    · simp only [ne_eq, hh, not_false_eq_true, if_true, Indexer.store, Indexer.emit,
        Function.update_same, hp, not_true_eq_false, if_false, true_and]
      intro q hq
      exact Function.update_noteq hq _ _
    · simp only [ne_eq, hh, not_false_eq_true, if_true, Indexer.store, Indexer.emit,
        Function.update_same, hp, Indexer.incWithProfiles, true_and]
      intro q hq
      exact Function.update_noteq hq _ _

/-- A Record with an empty zone-file hash is left alone by the body of the
zone-file loop, whichever Record the body handles. -/
theorem zonefileStep_quiet (env : Env) (zonefiles : String → String) (dom p : Nat) (s : Indexer)
    (hhash : env.zonefileHash (s.heap p) = "") :
    (zonefileStep env zonefiles dom s).heap p = s.heap p ∧
    (zonefileStep env zonefiles dom s).trace.filter (Op.touches p)
      = s.trace.filter (Op.touches p) := by
  unfold zonefileStep
  by_cases hh : env.zonefileHash (s.heap dom) = ""
  · simp [hh]
  · have hne : dom ≠ p := by
      intro h; rw [h] at hh; exact hh hhash
    by_cases hp : (env.addZonefile (s.heap dom)
        (zonefiles (env.zonefileHash (s.heap dom)))).profile = none
    · simp only [ne_eq, hh, not_false_eq_true, if_true, Indexer.store, Indexer.emit,
        Function.update_same, hp, not_true_eq_false, if_false]
      refine ⟨Function.update_noteq (Ne.symm hne) _ _, ?_⟩
      simp [List.filter_append, Op.touches, hne]
    · simp only [ne_eq, hh, not_false_eq_true, if_true, Indexer.store, Indexer.emit,
        Function.update_same, hp, Indexer.incWithProfiles]
      refine ⟨Function.update_noteq (Ne.symm hne) _ _, ?_⟩
      simp [List.filter_append, Op.touches, hne]

/-- The zone-file loop forwards every Record of the batch, in order. -/
theorem zonefileLoop_frame (env : Env) (zonefiles : String → String) :
    ∀ (doms : List Nat) (s : Indexer),
      (zonefileLoop env zonefiles doms s).resolveChan = s.resolveChan ++ doms ∧
      (zonefileLoop env zonefiles doms s).dbChan = s.dbChan ∧
      (zonefileLoop env zonefiles doms s).stats.sentDownResolveChan
        = s.stats.sentDownResolveChan + doms.length ∧
      (zonefileLoop env zonefiles doms s).stats.namesResolved = s.stats.namesResolved := by
  intro doms
  induction doms with
  | nil => intro s; simp [zonefileLoop]
  | cons dom rest ih =>
    intro s
    obtain ⟨h1, h2, h3, h4⟩ := ih (zonefileStep env zonefiles dom s)
    obtain ⟨g1, g2, g3, g4, -⟩ := zonefileStep_frame env zonefiles dom s
    simp only [zonefileLoop, List.length_cons]
    refine ⟨?_, ?_, ?_, ?_⟩
    · rw [h1, g1]; simp
    · rw [h2, g2]
    · rw [h3, g3]; omega
    · rw [h4, g4]

/-- The zone-file loop leaves a Record with an empty zone-file hash alone. -/
theorem zonefileLoop_quiet (env : Env) (zonefiles : String → String) (p : Nat) :
    ∀ (doms : List Nat) (s : Indexer), env.zonefileHash (s.heap p) = "" →
      (zonefileLoop env zonefiles doms s).heap p = s.heap p ∧
      (zonefileLoop env zonefiles doms s).trace.filter (Op.touches p)
        = s.trace.filter (Op.touches p) := by
  intro doms
  induction doms with
  | nil => intro s _; simp [zonefileLoop]
  | cons dom rest ih =>
    intro s hhash
    obtain ⟨g1, g2⟩ := zonefileStep_quiet env zonefiles dom p s hhash
    obtain ⟨h1, h2⟩ := ih (zonefileStep env zonefiles dom s) (by rw [g1]; exact hhash)
    simp only [zonefileLoop]
    exact ⟨by rw [h1, g1], by rw [h2, g2]⟩

/-- What the body of the profile loop does to the channels, to the counters of
the two stages and to the other Records. -/
theorem handleResolve_frame (env : Env) (d : Nat) (s : Indexer) :
    (handleResolve env d s).dbChan = s.dbChan ++ [d] ∧
    (handleResolve env d s).resolveChan = s.resolveChan ∧
    (handleResolve env d s).stats.namesResolved = s.stats.namesResolved + 1 ∧
    (handleResolve env d s).stats.sentDownResolveChan = s.stats.sentDownResolveChan ∧
    (∀ q, q ≠ d → (handleResolve env d s).heap q = s.heap q) := by
  unfold handleResolve
  by_cases hh : (s.heap d).profile = none
  · simp [hh]
  · by_cases hp : (env.resolveProfile (s.heap d)).profile = none
    · simp only [ne_eq, hh, not_false_eq_true, if_true, Indexer.store, Indexer.emit,
        Function.update_same, hp, not_true_eq_false, if_false, true_and]
      intro q hq
      exact Function.update_noteq hq _ _
    · simp only [ne_eq, hh, not_false_eq_true, if_true, Indexer.store, Indexer.emit,
        Function.update_same, hp, Indexer.incWithProfiles, true_and]
      intro q hq
      exact Function.update_noteq hq _ _

/-- A Record without a profile is left alone by the body of the profile loop,
whichever Record the body handles. -/
theorem handleResolve_quiet (env : Env) (d p : Nat) (s : Indexer)
    (hprof : (s.heap p).profile = none) :
    (handleResolve env d s).heap p = s.heap p ∧
    (handleResolve env d s).trace.filter (Op.touches p) = s.trace.filter (Op.touches p) := by
  unfold handleResolve
  by_cases hh : (s.heap d).profile = none
  · simp [hh]
  · have hne : d ≠ p := by
      intro h; rw [h] at hh; exact hh hprof
    by_cases hp : (env.resolveProfile (s.heap d)).profile = none
    · simp only [ne_eq, hh, not_false_eq_true, if_true, Indexer.store, Indexer.emit,
        Function.update_same, hp, not_true_eq_false, if_false]
      refine ⟨Function.update_noteq (Ne.symm hne) _ _, ?_⟩
      simp [List.filter_append, Op.touches, hne]
    · simp only [ne_eq, hh, not_false_eq_true, if_true, Indexer.store, Indexer.emit,
        Function.update_same, hp, Indexer.incWithProfiles]
      refine ⟨Function.update_noteq (Ne.symm hne) _ _, ?_⟩
      simp [List.filter_append, Op.touches, hne]

/-- The profile loop forwards every Record it receives, in order. -/
theorem handleResolveChanFed_frame (env : Env) :
    ∀ (ds : List Nat) (s : Indexer),
      (handleResolveChanFed env ds s).dbChan = s.dbChan ++ ds ∧
      (handleResolveChanFed env ds s).resolveChan = s.resolveChan ∧
      (handleResolveChanFed env ds s).stats.namesResolved = s.stats.namesResolved + ds.length ∧
      (handleResolveChanFed env ds s).stats.sentDownResolveChan
        = s.stats.sentDownResolveChan := by
  intro ds
  induction ds with
  | nil => intro s; simp [handleResolveChanFed]
  | cons d rest ih =>
    intro s
    obtain ⟨h1, h2, h3, h4⟩ := ih (handleResolve env d s)
    obtain ⟨g1, g2, g3, g4, -⟩ := handleResolve_frame env d s
    simp only [handleResolveChanFed, List.length_cons]
    refine ⟨?_, ?_, ?_, ?_⟩
    · rw [h1, g1]; simp
    · rw [h2, g2]
    · rw [h3, g3]; omega
    · rw [h4, g4]

/-- The profile loop leaves a Record without a profile alone. -/
theorem handleResolveChanFed_quiet (env : Env) (p : Nat) :
    ∀ (ds : List Nat) (s : Indexer), (s.heap p).profile = none →
      (handleResolveChanFed env ds s).heap p = s.heap p ∧
      (handleResolveChanFed env ds s).trace.filter (Op.touches p)
        = s.trace.filter (Op.touches p) := by
  intro ds
  induction ds with
  | nil => intro s _; simp [handleResolveChanFed]
  | cons d rest ih =>
    intro s hprof
    obtain ⟨g1, g2⟩ := handleResolve_quiet env d p s hprof
    obtain ⟨h1, h2⟩ := ih (handleResolve env d s) (by rw [g1]; exact hprof)
    simp only [handleResolveChanFed]
    exact ⟨by rw [h1, g1], by rw [h2, g2]⟩

/-- The zone-file loop does not touch the batch channel. -/
theorem zonefileLoop_namePageChan (env : Env) (zonefiles : String → String) :
    ∀ (doms : List Nat) (s : Indexer),
      (zonefileLoop env zonefiles doms s).namePageChan = s.namePageChan := by
  intro doms
  induction doms with
  | nil => intro s; rfl
  | cons d rest ih =>
    intro s
    simp only [zonefileLoop]
    rw [ih]
    unfold zonefileStep
    by_cases hh : env.zonefileHash (s.heap d) = ""
    · simp [hh]
    · by_cases hp : (env.addZonefile (s.heap d)
          (zonefiles (env.zonefileHash (s.heap d)))).profile = none
      · simp [hh, hp, Indexer.store, Indexer.emit]
      · simp [hh, hp, Indexer.store, Indexer.emit, Indexer.incWithProfiles]

/-- The Zonefile worker on a single queued batch whose bulk fetch succeeds: it
receives the batch, runs the zone-file loop on it and parks. -/
theorem handleNamePageChan_single (env : Env) (doms : List Nat) (s : Indexer)
    (res : ZonefilesResult) (hchan : s.namePageChan = [doms])
    (hfetch : env.getZonefiles (env.getZonefileHashes (doms.map s.heap)) = .ok res) :
    ∃ s0, handleNamePageChan env s = .parked (zonefileLoop env (env.decode res) doms s0) ∧
      s0.heap = s.heap ∧ s0.namePageChan = [] ∧ s0.resolveChan = s.resolveChan ∧
      s0.dbChan = s.dbChan ∧ s0.trace = s.trace ∧
      s0.stats.sentDownResolveChan = s.stats.sentDownResolveChan ∧
      s0.stats.namesResolved = s.stats.namesResolved :=
  ⟨{ s with namePageChan := [], cbCalls := s.cbCalls ++ [res.lastblock],
            stats := { s.stats with
              zonefilesFetched := s.stats.zonefilesFetched + res.zonefiles.length } },
    by simp only [handleNamePageChan, hchan, handleNamePageChanFed, handleNamePage, hfetch,
      Indexer.setCB],
    rfl, rfl, rfl, rfl, rfl, rfl, rfl⟩

/-- The Profile worker that receives the whole resolve queue. -/
theorem handleResolveChan_fed (env : Env) (s : Indexer) :
    ∃ s0, handleResolveChan env s = handleResolveChanFed env s.resolveChan s0 ∧
      s0.heap = s.heap ∧ s0.resolveChan = [] ∧ s0.dbChan = s.dbChan ∧ s0.trace = s.trace ∧
      s0.stats = s.stats :=
  ⟨{ s with resolveChan := [] }, rfl, rfl, rfl, rfl, rfl, rfl⟩

/-- C4: for a queued batch whose bulk zone-file fetch succeeds (and an empty
resolve queue), the Zonefile worker handles the batch and parks, having put
exactly the Records of the batch on the resolve queue; the Profile worker then
delivers to the persistence queue exactly these Records, in batch order, each
as often as it occurs in the batch (none dropped, none duplicated), behind
what was queued there before; the "sent to resolve" and the "resolved"
counters have each grown by the length of the batch. -/
theorem stages_deliver_batch (env : Env) (doms : List Nat) (s : Indexer) (res : ZonefilesResult)
    (hchan : s.namePageChan = [doms]) (hresolve : s.resolveChan = [])
    (hfetch : env.getZonefiles (env.getZonefileHashes (doms.map s.heap)) = .ok res) :
    ∃ s1, handleNamePageChan env s = .parked s1 ∧
      s1.namePageChan = [] ∧
      s1.resolveChan = doms ∧
      s1.dbChan = s.dbChan ∧
      (handleResolveChan env s1).resolveChan = [] ∧
      (handleResolveChan env s1).dbChan = s.dbChan ++ doms ∧
      (∀ p, (handleResolveChan env s1).dbChan.count p = s.dbChan.count p + doms.count p) ∧
      (handleResolveChan env s1).stats.sentDownResolveChan
        = s.stats.sentDownResolveChan + doms.length ∧
      (handleResolveChan env s1).stats.namesResolved = s.stats.namesResolved + doms.length := by
  obtain ⟨s0, hrun, -, e2, e3, e4, -, e6, e7⟩ :=
    handleNamePageChan_single env doms s res hchan hfetch
  obtain ⟨h1, h2, h3, h4⟩ := zonefileLoop_frame env (env.decode res) doms s0
  have hnp := zonefileLoop_namePageChan env (env.decode res) doms s0
  rw [e3, hresolve, List.nil_append] at h1
  rw [e4] at h2
  rw [e6] at h3
  rw [e7] at h4
  rw [e2] at hnp
  obtain ⟨t0, hfed, -, f2, f3, -, f5⟩ :=
    handleResolveChan_fed env (zonefileLoop env (env.decode res) doms s0)
  obtain ⟨k1, k2, k3, k4⟩ := handleResolveChanFed_frame env
    (zonefileLoop env (env.decode res) doms s0).resolveChan t0
  rw [f3, h2] at k1
  rw [f2] at k2
  rw [f5, h4] at k3
  rw [f5, h3] at k4
  rw [h1] at k1 k3 hfed k2 k4
  refine ⟨_, hrun, hnp, h1, h2, ?_, ?_, ?_, ?_, ?_⟩
  · rw [hfed]; exact k2
  · rw [hfed]; exact k1
  · intro p; rw [hfed, k1, List.count_append]
  · rw [hfed]; exact k4
  · rw [hfed]; exact k3

/-- C4, witness: the batch of `twoRecords`. -/
theorem stages_deliver_batch_witness :
    twoRecords.namePageChan = [[0, 1]] ∧ twoRecords.resolveChan = [] ∧
    (specEnv []).getZonefiles ((specEnv []).getZonefileHashes ([0, 1].map twoRecords.heap))
      = .ok { zonefiles := [("ha", "zha")], lastblock := 1 } ∧
    ∃ s1, handleNamePageChan (specEnv []) twoRecords = .parked s1 ∧
      s1.namePageChan = [] ∧
      s1.resolveChan = [0, 1] ∧
      s1.dbChan = twoRecords.dbChan ∧
      (handleResolveChan (specEnv []) s1).resolveChan = [] ∧
      (handleResolveChan (specEnv []) s1).dbChan = twoRecords.dbChan ++ [0, 1] ∧
      (∀ p, (handleResolveChan (specEnv []) s1).dbChan.count p
        = twoRecords.dbChan.count p + [0, 1].count p) ∧
      (handleResolveChan (specEnv []) s1).stats.sentDownResolveChan
        = twoRecords.stats.sentDownResolveChan + [0, 1].length ∧
      (handleResolveChan (specEnv []) s1).stats.namesResolved
        = twoRecords.stats.namesResolved + [0, 1].length :=
  ⟨rfl, rfl, rfl,
    stages_deliver_batch (specEnv []) [0, 1] twoRecords
      { zonefiles := [("ha", "zha")], lastblock := 1 } rfl rfl rfl⟩

/-- C5: a Record of a queued batch whose bulk zone-file fetch succeeds, with an
empty zone-file hash, no zone file and no profile on entry: the Zonefile
worker calls no `AddZonefile` for it, the Profile worker no `ResolveProfile`,
neither increments the with-profiles counter while handling it, and the
Record arrives on the persistence queue unchanged in all its fields, its zone
file and profile still absent. -/
theorem empty_hash_bypass (env : Env) (doms : List Nat) (s : Indexer) (res : ZonefilesResult)
    (p : Nat) (hchan : s.namePageChan = [doms]) (hmem : p ∈ doms)
    (hfetch : env.getZonefiles (env.getZonefileHashes (doms.map s.heap)) = .ok res)
    (hhash : env.zonefileHash (s.heap p) = "")
    (hzone : (s.heap p).zonefile = none) (hprof : (s.heap p).profile = none) :
    ∃ s1, handleNamePageChan env s = .parked s1 ∧
      s1.heap p = s.heap p ∧
      s1.trace.filter (Op.touches p) = s.trace.filter (Op.touches p) ∧
      p ∈ (handleResolveChan env s1).dbChan ∧
      (handleResolveChan env s1).heap p = s.heap p ∧
      ((handleResolveChan env s1).heap p).zonefile = none ∧
      ((handleResolveChan env s1).heap p).profile = none ∧
      (handleResolveChan env s1).trace.filter (Op.touches p)
        = s.trace.filter (Op.touches p) := by
  obtain ⟨s0, hrun, e1, -, -, -, e5, -, -⟩ :=
    handleNamePageChan_single env doms s res hchan hfetch
  obtain ⟨h1, -, -, -⟩ := zonefileLoop_frame env (env.decode res) doms s0
  obtain ⟨q1, q2⟩ := zonefileLoop_quiet env (env.decode res) p doms s0 (by rw [e1]; exact hhash)
  rw [e1] at q1
  rw [e5] at q2
  obtain ⟨t0, hfed, f1, -, -, f4, -⟩ :=
    handleResolveChan_fed env (zonefileLoop env (env.decode res) doms s0)
  obtain ⟨k1, -, -, -⟩ := handleResolveChanFed_frame env
    (zonefileLoop env (env.decode res) doms s0).resolveChan t0
  obtain ⟨r1, r2⟩ := handleResolveChanFed_quiet env p
    (zonefileLoop env (env.decode res) doms s0).resolveChan t0
    (by rw [f1, q1]; exact hprof)
  rw [f1, q1] at r1
  rw [f4, q2] at r2
  refine ⟨_, hrun, q1, q2, ?_, ?_, ?_, ?_, ?_⟩
  · rw [hfed, k1, h1]
    exact List.mem_append_right _ (List.mem_append_right _ hmem)
  · rw [hfed]; exact r1
  · rw [hfed, r1]; exact hzone
  · rw [hfed, r1]; exact hprof
  · rw [hfed]; exact r2

/-- C5, witness: the Record at 1 of `twoRecords`, which has no blockchain
record and hence an empty zone-file hash. -/
theorem empty_hash_bypass_witness :
    twoRecords.namePageChan = [[0, 1]] ∧ 1 ∈ [0, 1] ∧
    (specEnv []).getZonefiles ((specEnv []).getZonefileHashes ([0, 1].map twoRecords.heap))
      = .ok { zonefiles := [("ha", "zha")], lastblock := 1 } ∧
    (specEnv []).zonefileHash (twoRecords.heap 1) = "" ∧
    (twoRecords.heap 1).zonefile = none ∧ (twoRecords.heap 1).profile = none ∧
    ∃ s1, handleNamePageChan (specEnv []) twoRecords = .parked s1 ∧
      s1.heap 1 = twoRecords.heap 1 ∧
      s1.trace.filter (Op.touches 1) = twoRecords.trace.filter (Op.touches 1) ∧
      1 ∈ (handleResolveChan (specEnv []) s1).dbChan ∧
      (handleResolveChan (specEnv []) s1).heap 1 = twoRecords.heap 1 ∧
      ((handleResolveChan (specEnv []) s1).heap 1).zonefile = none ∧
      ((handleResolveChan (specEnv []) s1).heap 1).profile = none ∧
      (handleResolveChan (specEnv []) s1).trace.filter (Op.touches 1)
        = twoRecords.trace.filter (Op.touches 1) :=
  ⟨rfl, by decide, rfl, by decide, rfl, rfl,
    empty_hash_bypass (specEnv []) [0, 1] twoRecords
      { zonefiles := [("ha", "zha")], lastblock := 1 } 1 rfl (by decide) rfl
      (by decide) rfl rfl⟩

/-- A batch whose bulk fetch succeeds is forwarded whole. -/
theorem handleNamePage_returned (env : Env) (doms : List Nat) (s s1 : Indexer)
    (h : handleNamePage env doms s = .returned s1) :
    s1.resolveChan = s.resolveChan ++ doms := by
  unfold handleNamePage at h
  cases hf : env.getZonefiles (env.getZonefileHashes (doms.map s.heap)) with
  | error err => simp [hf] at h
  | ok res =>
    simp only [hf, Outcome.returned.injEq] at h
    rw [← h]
    exact (zonefileLoop_frame env (env.decode res) doms _).1

/-- One iteration of the Zonefile worker never parks. -/
theorem handleNamePage_not_parked (env : Env) (doms : List Nat) (s s1 : Indexer) :
    handleNamePage env doms s ≠ .parked s1 := by
  unfold handleNamePage
  cases env.getZonefiles (env.getZonefileHashes (doms.map s.heap)) <;> simp

/-- A Zonefile worker that handled all of `pre` goes on with what follows. -/
theorem handleNamePageChanFed_append (env : Env) (rest : List (List Nat)) :
    ∀ (pre : List (List Nat)) (s s1 : Indexer),
      handleNamePageChanFed env pre s = .parked s1 →
      handleNamePageChanFed env (pre ++ rest) s = handleNamePageChanFed env rest s1 ∧
      s1.resolveChan = s.resolveChan ++ pre.flatten := by
  intro pre
  induction pre with
  | nil =>
    intro s s1 h
    simp only [handleNamePageChanFed, Outcome.parked.injEq] at h
    subst h
    simp
  | cons doms pre ih =>
    intro s s1 h
    simp only [handleNamePageChanFed, List.cons_append] at h ⊢
    cases hd : handleNamePage env doms s with
    | returned s2 =>
      simp only [hd] at h ⊢
      obtain ⟨h1, h2⟩ := ih s2 s1 h
      refine ⟨h1, ?_⟩
      rw [h2, handleNamePage_returned env doms s s2 hd]
      simp
    | crashed s2 => simp [hd] at h
    | parked s2 => exact absurd hd (handleNamePage_not_parked env doms s s2)

/-- C6 (as amended): for every sequence of batches fed to a Zonefile worker, if
the worker has handled the batches `pre` and the bulk zone-file fetch fails
for the next batch, then `log.Fatal` ends the process there: on the resolve
queue are the Records of `pre` and nothing else, so none of the failed batch's
Records is forwarded, and no later batch of the sequence is handled or
forwarded. -/
theorem fetch_failure_is_fatal (env : Env) (pre : List (List Nat)) (doms : List Nat)
    (post : List (List Nat)) (s s1 : Indexer) (err : String)
    (hpre : handleNamePageChanFed env pre s = .parked s1)
    (hfail : env.getZonefiles (env.getZonefileHashes (doms.map s1.heap)) = .error err) :
    handleNamePageChanFed env (pre ++ doms :: post) s = .crashed (s1.emit (Op.log err)) ∧
    (s1.emit (Op.log err)).resolveChan = s.resolveChan ++ pre.flatten := by
  obtain ⟨h1, h2⟩ := handleNamePageChanFed_append env (doms :: post) pre s s1 hpre
  refine ⟨?_, ?_⟩
  · rw [h1]
    simp only [handleNamePageChanFed, handleNamePage, hfail]
  · rw [← h2]; rfl

/-- C6, witness: over `zonefilesDownEnv` a worker is fed the batch `[1]`, which
it handles, then the batch `[0]`, whose bulk fetch fails, then `[1]` again. -/
theorem fetch_failure_is_fatal_witness :
    handleNamePageChanFed zonefilesDownEnv [[1]] twoBatches
      = .parked (handleNamePageChanFed zonefilesDownEnv [[1]] twoBatches).state ∧
    zonefilesDownEnv.getZonefiles (zonefilesDownEnv.getZonefileHashes
        ([0].map (handleNamePageChanFed zonefilesDownEnv [[1]] twoBatches).state.heap))
      = .error "zonefiles unavailable" ∧
    (handleNamePageChanFed zonefilesDownEnv ([[1]] ++ [0] :: [[1]]) twoBatches
      = .crashed ((handleNamePageChanFed zonefilesDownEnv [[1]] twoBatches).state.emit
          (Op.log "zonefiles unavailable")) ∧
    ((handleNamePageChanFed zonefilesDownEnv [[1]] twoBatches).state.emit
          (Op.log "zonefiles unavailable")).resolveChan
      = twoBatches.resolveChan ++ [[1]].flatten) :=
  ⟨rfl, rfl,
    fetch_failure_is_fatal zonefilesDownEnv [[1]] [0] [[1]] twoBatches
      (handleNamePageChanFed zonefilesDownEnv [[1]] twoBatches).state
      "zonefiles unavailable" rfl rfl⟩

/-- C6, counterexample to the claim as stated: over `zonefilesDownEnv` the
queue holds the batch `[0]`, whose bulk fetch fails, and then the batch `[1]`,
whose bulk fetch would succeed (handled alone it is forwarded). The worker
ends the process at the first batch: the Record of the later batch is never
forwarded. -/
theorem later_batch_not_processed :
    (handleNamePageChan zonefilesDownEnv twoBatches).isCrashed = true ∧
    (handleNamePageChan zonefilesDownEnv twoBatches).state.resolveChan = [] ∧
    1 ∉ (handleNamePageChan zonefilesDownEnv twoBatches).state.resolveChan ∧
    (handleNamePageChanFed zonefilesDownEnv [[1]] twoBatches).isCrashed = false ∧
    (handleNamePageChanFed zonefilesDownEnv [[1]] twoBatches).state.resolveChan = [1] := by
  decide

/-! ## The with-profiles counter -/

/-- C10 (as amended): the with-profiles counter is incremented in two stages.
While handling a Record the Zonefile stage increments it once if the Record
has a non-empty zone-file hash and has a profile after `AddZonefile`, and not
otherwise; the Profile stage increments it once if the Record has a profile on
arrival and still has one after `ResolveProfile`, and not otherwise. The page
fetch and the Persistence stage never increment it. A Record is thus counted
zero, one or two times on its way through the Zonefile and Profile stages, and
a Record with a non-empty zone-file hash that leaves the Profile stage with a
profile has been counted twice. -/
theorem withProfiles_increments (env : Env) (zonefiles : String → String) (p : Nat)
    (s : Indexer) (name : String) :
    (zonefileStep env zonefiles p s).stats.withProfiles
      = s.stats.withProfiles +
        (if env.zonefileHash (s.heap p) ≠ "" ∧
            (env.addZonefile (s.heap p) (zonefiles (env.zonefileHash (s.heap p)))).profile ≠ none
          then 1 else 0) ∧
    (handleResolve env p s).stats.withProfiles
      = s.stats.withProfiles +
        (if (s.heap p).profile ≠ none ∧ (env.resolveProfile (s.heap p)).profile ≠ none
          then 1 else 0) ∧
    (fetchName env name s).stats.withProfiles = s.stats.withProfiles ∧
    (handleDB env p s).stats.withProfiles = s.stats.withProfiles ∧
    (handleResolve env p (zonefileStep env zonefiles p s)).stats.withProfiles
      ≤ s.stats.withProfiles + 2 ∧
    (env.zonefileHash (s.heap p) ≠ "" →
      ((handleResolve env p (zonefileStep env zonefiles p s)).heap p).profile ≠ none →
      (handleResolve env p (zonefileStep env zonefiles p s)).stats.withProfiles
        = s.stats.withProfiles + 2) := by
  have hz : (zonefileStep env zonefiles p s).stats.withProfiles
      = s.stats.withProfiles +
        (if env.zonefileHash (s.heap p) ≠ "" ∧
            (env.addZonefile (s.heap p) (zonefiles (env.zonefileHash (s.heap p)))).profile ≠ none
          then 1 else 0) := by
    unfold zonefileStep
    by_cases hh : env.zonefileHash (s.heap p) = ""
    · simp [hh]
    · by_cases hp : (env.addZonefile (s.heap p)
          (zonefiles (env.zonefileHash (s.heap p)))).profile = none
      · simp [hh, hp, Indexer.store, Indexer.emit]
      · simp [hh, hp, Indexer.store, Indexer.emit, Indexer.incWithProfiles]
  have hr : ∀ t : Indexer, (handleResolve env p t).stats.withProfiles
      = t.stats.withProfiles +
        (if (t.heap p).profile ≠ none ∧ (env.resolveProfile (t.heap p)).profile ≠ none
          then 1 else 0) := by
    intro t
    unfold handleResolve
    by_cases hh : (t.heap p).profile = none
    · simp [hh]
    · by_cases hp : (env.resolveProfile (t.heap p)).profile = none
      · simp [hh, hp, Indexer.store, Indexer.emit]
      · simp [hh, hp, Indexer.store, Indexer.emit, Indexer.incWithProfiles]
  refine ⟨hz, hr s, ?_, ?_, ?_, ?_⟩
  · simp [fetchName, Indexer.store, logIf_stats]
  · simp [handleDB, Indexer.emit, logIf_stats]
  · rw [hr, hz]
    split <;> split <;> omega
  · intro hh hfinal
    have hheap : (zonefileStep env zonefiles p s).heap p
        = env.addZonefile (s.heap p) (zonefiles (env.zonefileHash (s.heap p))) := by
      unfold zonefileStep
      by_cases hp : (env.addZonefile (s.heap p)
          (zonefiles (env.zonefileHash (s.heap p)))).profile = none
      · simp [hh, hp, Indexer.store, Indexer.emit]
      · simp [hh, hp, Indexer.store, Indexer.emit, Indexer.incWithProfiles]
    have harr : (env.addZonefile (s.heap p)
        (zonefiles (env.zonefileHash (s.heap p)))).profile ≠ none := by
      intro hnone
      apply hfinal
      rw [(handleResolve_quiet env p p _ (by rw [hheap]; exact hnone)).1, hheap]
      exact hnone
    have hres : (env.resolveProfile (env.addZonefile (s.heap p)
        (zonefiles (env.zonefileHash (s.heap p))))).profile ≠ none := by
      intro hnone
      apply hfinal
      unfold handleResolve
      simp [hheap, harr, hnone, Indexer.store, Indexer.emit]
    rw [hr, hz, hheap]
    simp [hh, harr, hres]

/-- C10, counterexample to the claim as stated: over `specEnv ["a"]` the single
Record gets a zone file that yields a profile marker, and profile resolution
returns a profile for it. One Record leaves the Profile stage, with a profile,
but the with-profiles counter stands at 2: the Zonefile stage incremented it
as well, as the trace of the increments shows. -/
theorem withProfiles_counted_twice :
    oneNameResolved.dbChan = [0] ∧
    (oneNameResolved.dbChan.filter
      (fun p => (oneNameResolved.heap p).profile.isSome)).length = 1 ∧
    oneNameResolved.stats.withProfiles = 2 ∧
    oneNameResolved.trace.filter (Op.touches 0)
      = [Op.addZonefile 0, Op.withProfilesInc 0, Op.resolveProfile 0, Op.withProfilesInc 0] := by
  decide

/-! ## The Persistence stage -/

theorem storeCalls_append (a b : List Op) :
    storeCalls (a ++ b) = storeCalls a ++ storeCalls b := by
  induction a with
  | nil => rfl
  | cons op rest ih => cases op <;> simp [storeCalls, ih]

/-- What one iteration of the persistence loop adds to the trace. -/
theorem handleDB_trace (env : Env) (d : Nat) (s : Indexer) :
    (handleDB env d s).trace
      = s.trace ++ [Op.validate d (Validate env (s.heap d).profile), Op.sessionCopy,
          Op.insert d (env.insert s.inserts (s.heap d))]
        ++ ((env.insert s.inserts (s.heap d)).map (fun e => Op.log ("MONGO " ++ e))).toList
        ++ [Op.sessionClose] := by
  simp [handleDB, Indexer.emit, logIf_trace]

/-- One iteration of the persistence loop leaves the Records as they are and
counts one insertion. -/
theorem handleDB_frame (env : Env) (d : Nat) (s : Indexer) :
    (handleDB env d s).heap = s.heap ∧ (handleDB env d s).inserts = s.inserts + 1 ∧
    (handleDB env d s).dbChan = s.dbChan := by
  simp [handleDB, Indexer.emit, logIf_heap, logIf_inserts, logIf_dbChan]

/-- The calls one iteration of the persistence loop makes on the store. -/
theorem handleDB_storeCalls (env : Env) (d : Nat) (s : Indexer) :
    storeCalls (handleDB env d s).trace
      = storeCalls s.trace ++ [StoreCall.copy, StoreCall.insert d, StoreCall.close] := by
  rw [handleDB_trace]
  cases env.insert s.inserts (s.heap d) <;> simp [storeCalls_append, storeCalls]

/-- The calls a Persistence worker makes on the store, for the Records fed. -/
theorem handleDBChanFed_storeCalls (env : Env) :
    ∀ (ds : List Nat) (s : Indexer),
      storeCalls (handleDBChanFed env ds s).trace
        = storeCalls s.trace
          ++ ds.flatMap (fun d => [StoreCall.copy, StoreCall.insert d, StoreCall.close]) ∧
      (handleDBChanFed env ds s).inserts = s.inserts + ds.length ∧
      (handleDBChanFed env ds s).heap = s.heap := by
  intro ds
  induction ds with
  | nil => intro s; simp [handleDBChanFed]
  | cons d rest ih =>
    intro s
    obtain ⟨h1, h2, h3⟩ := ih (handleDB env d s)
    obtain ⟨g1, g2, -⟩ := handleDB_frame env d s
    simp only [handleDBChanFed, List.flatMap_cons, List.length_cons]
    refine ⟨?_, ?_, ?_⟩
    · rw [h1, handleDB_storeCalls]; simp
    · rw [h2, g2]; omega
    · rw [h3, g1]

/-- C8: for every sequence of Records fed to a Persistence worker, from every
state and for every assignment of outcomes to the insertions (`env.insert`),
the worker makes on the document store, for each Record in queue order, one
session copy, one `Insert` of that Record and one session close, and nothing
else; it makes as many insertions as Records were fed and leaves the Records
unchanged. The calls are the same under any other assignment of insertion
outcomes: a failed insertion neither stops the worker nor changes what is
attempted afterwards. -/
theorem handleDBChan_attempts (env : Env) (ds : List Nat) (s : Indexer) :
    storeCalls (handleDBChanFed env ds s).trace
      = storeCalls s.trace
        ++ ds.flatMap (fun d => [StoreCall.copy, StoreCall.insert d, StoreCall.close]) ∧
    (handleDBChanFed env ds s).inserts = s.inserts + ds.length ∧
    (handleDBChanFed env ds s).heap = s.heap ∧
    (∀ outcomes : Nat → Domain → Option String,
      storeCalls (handleDBChanFed { env with insert := outcomes } ds s).trace
        = storeCalls (handleDBChanFed env ds s).trace) ∧
    storeCalls (handleDBChan env s).trace
      = storeCalls s.trace
        ++ s.dbChan.flatMap (fun d => [StoreCall.copy, StoreCall.insert d, StoreCall.close]) := by
  obtain ⟨h1, h2, h3⟩ := handleDBChanFed_storeCalls env ds s
  refine ⟨h1, h2, h3, ?_, ?_⟩
  · intro outcomes
    rw [h1, (handleDBChanFed_storeCalls { env with insert := outcomes } ds s).1]
  · exact (handleDBChanFed_storeCalls env s.dbChan { s with dbChan := [] }).1

/-- C7 (as amended): for every Record reaching the Persistence stage with a
profile attached, if validation of that profile fails the Record is inserted
all the same: the iteration validates (verdict: failed), copies the session,
calls `Insert` for the Record exactly once, logs the insertion error if there
is one, and closes the session. The verdict of `Validate` is not used. -/
theorem insert_despite_failed_validation (env : Env) (d : Nat) (s : Indexer) (prof : Profile)
    (hprof : (s.heap d).profile = some prof) (hfail : env.validateProfile prof = false) :
    (handleDB env d s).trace
      = s.trace ++ [Op.validate d false, Op.sessionCopy,
          Op.insert d (env.insert s.inserts (s.heap d))]
        ++ ((env.insert s.inserts (s.heap d)).map (fun e => Op.log ("MONGO " ++ e))).toList
        ++ [Op.sessionClose] ∧
    storeCalls (handleDB env d s).trace
      = storeCalls s.trace ++ [StoreCall.copy, StoreCall.insert d, StoreCall.close] ∧
    (handleDB env d s).inserts = s.inserts + 1 := by
  refine ⟨?_, handleDB_storeCalls env d s, (handleDB_frame env d s).2.1⟩
  rw [handleDB_trace, hprof]
  simp [Validate, hfail]

/-- C7, witness: the Record of `invalidProfileQueued`. -/
theorem insert_despite_failed_validation_witness :
    (invalidProfileQueued.heap 0).profile = some { body := "not a profile" } ∧
    (specEnv []).validateProfile { body := "not a profile" } = false ∧
    ((handleDB (specEnv []) 0 invalidProfileQueued).trace
      = invalidProfileQueued.trace ++ [Op.validate 0 false, Op.sessionCopy,
          Op.insert 0 ((specEnv []).insert invalidProfileQueued.inserts
            (invalidProfileQueued.heap 0))]
        ++ (((specEnv []).insert invalidProfileQueued.inserts
            (invalidProfileQueued.heap 0)).map (fun e => Op.log ("MONGO " ++ e))).toList
        ++ [Op.sessionClose] ∧
    storeCalls (handleDB (specEnv []) 0 invalidProfileQueued).trace
      = storeCalls invalidProfileQueued.trace
        ++ [StoreCall.copy, StoreCall.insert 0, StoreCall.close] ∧
    (handleDB (specEnv []) 0 invalidProfileQueued).inserts
      = invalidProfileQueued.inserts + 1) :=
  ⟨rfl, by decide,
    insert_despite_failed_validation (specEnv []) 0 invalidProfileQueued
      { body := "not a profile" } rfl (by decide)⟩

/-- C7, counterexample to the claim as stated: the Record queued in
`invalidProfileQueued` has a profile whose validation fails, and the
Persistence worker calls `Insert` for it. -/
theorem invalid_profile_inserted :
    Validate (specEnv []) (invalidProfileQueued.heap 0).profile = false ∧
    (handleDBChan (specEnv []) invalidProfileQueued).trace
      = [Op.validate 0 false, Op.sessionCopy, Op.insert 0 none, Op.sessionClose] ∧
    StoreCall.insert 0 ∈ storeCalls (handleDBChan (specEnv []) invalidProfileQueued).trace := by
  decide

/-! ## The batches of a namespace, over every run -/

end IndexByName
